import Mathlib

set_option linter.unusedVariables false

/-! Shallow embedding of `src/Verilog_Byte_Analyzer.py`.

Python strings are modelled as `List Char`; the integer values the analyzer
produces are non-negative and unbounded, modelled as `Nat` (imported JSON field
ranges, which may be negative, are modelled as `Int`).  The string helpers
(`strip`, `lower`, `split`) and the decimal-digit class of `\d` and `int()`
are modelled for ASCII text, the character set the analyzer's literal grammars
and commands accept; `str.isdigit` is modelled faithfully as a strictly wider
class that also accepts digit-typed non-decimal characters (superscript and
subscript digits such as `²`), which `int()` rejects — the mismatch that lets
a `ValueError` escape the dec branch of `parse_by_mode`. -/

/-- Python whitespace test used by `str.strip` and `str.split`, ASCII model. -/
def pyIsSpace (c : Char) : Bool :=
  c = ' ' || c = '\t' || c = '\n' || c = '\r' || c = '\x0b' || c = '\x0c'

/-- Python `str.lower` on one character, ASCII model: code points 65-90
(`A`-`Z`) shift to 97-122 (`a`-`z`). -/
def pyCharLower (c : Char) : Char :=
  if 65 ≤ c.toNat ∧ c.toNat ≤ 90 then Char.ofNat (c.toNat + 32) else c

/-- Python `str.lower`, ASCII model. -/
def pyLower (s : List Char) : List Char := s.map pyCharLower

/-- Python `str.strip()`: drop leading and trailing whitespace. -/
def pyStrip (s : List Char) : List Char :=
  ((s.dropWhile pyIsSpace).reverse.dropWhile pyIsSpace).reverse

/-- Python `str.split()` with no argument: split on whitespace runs, dropping
empty tokens. -/
def pySplitAux : List Char → List Char → List (List Char)
  | [], acc => if acc.isEmpty then [] else [acc.reverse]
  | c :: rest, acc =>
    if pyIsSpace c then
      if acc.isEmpty then pySplitAux rest [] else acc.reverse :: pySplitAux rest []
    else pySplitAux rest (c :: acc)

/-- Python `str.split()` with no argument: split on whitespace runs, dropping
empty tokens. -/
def pySplit (s : List Char) : List (List Char) := pySplitAux s []

/-- Decimal digit character for `d < 10`, as Python renders integers. -/
def digitChar (d : Nat) : Char :=
  if d = 0 then '0' else if d = 1 then '1' else if d = 2 then '2' else if d = 3 then '3'
  else if d = 4 then '4' else if d = 5 then '5' else if d = 6 then '6' else if d = 7 then '7'
  else if d = 8 then '8' else '9'

/-- Python `str(v)` for a non-negative integer: decimal digits, most significant
digit first. -/
def pyStrNat (v : Nat) : List Char :=
  if v < 10 then [digitChar v] else pyStrNat (v / 10) ++ [digitChar (v % 10)]
termination_by v
decreasing_by
  omega

/-- Value of a character as a digit (`0`-`9` at code points 48-57, `a`-`f` at
97-102, `A`-`F` at 65-70), the digits Python `int(s, base)` understands for
the bases the analyzer uses. -/
def pyDigitVal (c : Char) : Option Nat :=
  if 48 ≤ c.toNat ∧ c.toNat ≤ 57 then some (c.toNat - 48)
  else if 97 ≤ c.toNat ∧ c.toNat ≤ 102 then some (c.toNat - 97 + 10)
  else if 65 ≤ c.toNat ∧ c.toNat ≤ 70 then some (c.toNat - 65 + 10)
  else none

/-- Whether a character is a valid digit for the given base. -/
def pyDigitOk (base : Nat) (c : Char) : Bool :=
  match pyDigitVal c with
  | some d => d < base
  | none => false

/-- Accumulated value of a digit string in the given base. -/
def pyIntVal (base : Nat) (digits : List Char) : Nat :=
  digits.foldl (fun a c => a * base + (pyDigitVal c).getD 0) 0

/-- Python `int(digits, base)`, modelled for plain digit strings — the only
inputs the analyzer passes.  A `ValueError` (empty string or a character that
is not a digit of the base) is modelled as `Except.error`. -/
def pyInt (digits : List Char) (base : Nat) : Except String Nat :=
  if digits ≠ [] ∧ digits.all (pyDigitOk base) then .ok (pyIntVal base digits)
  else .error "invalid literal for int()"

/-- Character class `[0-9a-fA-F]` of the regexes in `parse_by_mode`, by code
point ranges 48-57, 97-102, 65-70. -/
def isHexChar (c : Char) : Bool :=
  decide (48 ≤ c.toNat ∧ c.toNat ≤ 57) || decide (97 ≤ c.toNat ∧ c.toNat ≤ 102) ||
    decide (65 ≤ c.toNat ∧ c.toNat ≤ 70)

/-- Python's decimal digit class: the characters `re` matches for `\d` and
`int()` accepts as base-10 digits, ASCII model (code points 48-57). -/
def pyDecimalDigit (c : Char) : Bool := decide (48 ≤ c.toNat ∧ c.toNat ≤ 57)

/-- Digit-typed characters that are not decimal digits: the Latin-1
superscripts `¹`, `²`, `³` (code points 185, 178, 179) and the superscript and
subscript digits at 8304, 8308-8313 and 8320-8329.  Python `str.isdigit`
accepts them (they carry `Numeric_Type=Digit`) while `int()` and `\d` reject
them; the full Unicode class has further members, all behaving like these. -/
def pyDigitTypeChar (c : Char) : Bool :=
  decide (c.toNat = 178 ∨ c.toNat = 179 ∨ c.toNat = 185 ∨ c.toNat = 8304 ∨
    (8308 ≤ c.toNat ∧ c.toNat ≤ 8313) ∨ (8320 ≤ c.toNat ∧ c.toNat ≤ 8329))

/-- Character class of Python `str.isdigit`: decimal digits plus digit-typed
non-decimal characters — strictly wider than the class `int()` accepts. -/
def pyIsDigitChar (c : Char) : Bool := pyDecimalDigit c || pyDigitTypeChar c

/-- Character class `[0-9a-fA-F_]`. -/
def isHexU (c : Char) : Bool := isHexChar c || c = '_'

/-- Character class `[01]`. -/
def isBinChar (c : Char) : Bool := c = '0' || c = '1'

/-- Character class `[01_]`. -/
def isBinU (c : Char) : Bool := isBinChar c || c = '_'

/-- Python `re.fullmatch` of a pattern `cls+`: the string is non-empty and made
of class characters only. -/
def re_fullmatch_class (cls : Char → Bool) (s : List Char) : Bool :=
  !s.isEmpty && s.all cls

/-- Python `str.isdigit()`, ASCII model: non-empty and all decimal digits. -/
def pyIsdigit (s : List Char) : Bool := !s.isEmpty && s.all pyIsDigitChar

/-- Capture group of Python `re.search(r"(?:\d+)?'M([cls]+)", s)` for a marker
character `M` and digit class `cls` (src lines 31 and 40).

The regex matches exactly at positions where a quote is directly followed by
the marker and at least one class character.  The optional width prefix
`(?:\d+)?` never enables or disables a match (it is optional, and `\d` cannot
match the quote), and it cannot change which quote anchors the leftmost match,
because a digit run ending at a later quote cannot reach back across an
earlier quote character.  The capture group is the greedy run of class
characters after the marker, so `re.search` reduces to: find the first quote
followed by the marker and a class character, and take the maximal class run
after the marker. -/
def re_search_group (marker : Char) (cls : Char → Bool) : List Char → Option (List Char)
  | [] => none
  | c :: rest =>
    if c = '\'' && rest.get? 0 == some marker && ((rest.get? 1).map cls).getD false then
      some ((rest.drop 1).takeWhile cls)
    else re_search_group marker cls rest

/-- Proposition: the quote-marker-classchar pattern occurs at index `i` of `s`. -/
def tickPatternAt (marker : Char) (cls : Char → Bool) (s : List Char) (i : Nat) : Prop :=
  s.get? i = some '\'' ∧ s.get? (i + 1) = some marker ∧
    ∃ d, s.get? (i + 2) = some d ∧ cls d = true

/-- Translation of `parse_by_mode` (src lines 28-45).  `Except.error` models an
uncaught `ValueError` escaping the function — which happens exactly when the
dec branch's `isdigit` guard lets a digit-typed non-decimal character such as
`²` reach `int()`; `.ok none` models `return None`, and `.ok (some v)` a
parsed value. -/
def parse_by_mode (raw : List Char) (mode : String) : Except String (Option Nat) :=
  let input_str := pyLower (pyStrip raw)
  if mode = "hex" then
    let hex_digits :=
      match re_search_group 'h' isHexU input_str with
      | some g => g
      | none => input_str
    let hex_digits := hex_digits.filter (fun c => c != '_')
    if re_fullmatch_class isHexChar hex_digits then do
      let v ← pyInt hex_digits 16
      pure (some v)
    else pure none
  else if mode = "dec" then
    if pyIsdigit input_str then do
      let v ← pyInt input_str 10
      pure (some v)
    else pure none
  else if mode = "bin" then
    let bin_digits :=
      match re_search_group 'b' isBinU input_str with
      | some g => g
      | none => input_str
    let bin_digits := bin_digits.filter (fun c => c != '_')
    if re_fullmatch_class isBinChar bin_digits then do
      let v ← pyInt bin_digits 2
      pure (some v)
    else pure none
  else pure none

/-- The `hex_digits` string the hex branch of `parse_by_mode` converts (src
lines 31-33): the capture group of the width-quote pattern if the search finds
one, otherwise the whole trimmed lowered input, with underscores removed. -/
def hex_digits_of (raw : List Char) : List Char :=
  ((re_search_group 'h' isHexU (pyLower (pyStrip raw))).getD (pyLower (pyStrip raw))).filter
    (fun c => c != '_')

/-- While-loop of `convert_to_bytes` (src lines 50-53): emit the low byte, then
shift right by eight, until the value is zero. -/
def convert_to_bytes_go (value : Nat) : List Nat :=
  if value = 0 then [] else (value &&& 0xFF) :: convert_to_bytes_go (value >>> 8)
termination_by value
decreasing_by
  rename_i h
  rw [Nat.shiftRight_eq_div_pow]
  exact Nat.div_lt_self (Nat.pos_of_ne_zero h) (by norm_num)

/-- Translation of `convert_to_bytes` (src lines 47-54). -/
def convert_to_bytes (value : Nat) : List Nat :=
  if value = 0 then [0] else convert_to_bytes_go value

/-- Little-endian value of a byte list: index 0 is the least significant byte. -/
def bytesFold (l : List Nat) : Nat := l.foldr (fun b acc => b + 256 * acc) 0

/-- Translation of `extract_bit_range` (src lines 106-111). -/
def extract_bit_range (value start_bit end_bit : Nat) : Nat × Nat × Nat :=
  let width := ((end_bit : Int) - (start_bit : Int)).natAbs + 1
  let mask := (1 <<< width) - 1
  let low := min start_bit end_bit
  let extracted := (value >>> low) &&& mask
  (extracted, low, low + width - 1)

/-- Zero-padding of a word group to four bytes (src lines 79-80: the while loop
appends zeros until the group has length four). -/
def pad4 (word_bytes : List Nat) : List Nat :=
  word_bytes ++ List.replicate (4 - word_bytes.length) 0

/-- Little-endian 32-bit word of a four-byte group (src line 81). -/
def word_of_bytes (word_bytes : List Nat) : Nat :=
  (word_bytes.getD 3 0) <<< 24 ||| (word_bytes.getD 2 0) <<< 16 |||
    (word_bytes.getD 1 0) <<< 8 ||| (word_bytes.getD 0 0)

/-- Word `i` of a byte list under `dw_align` (src lines 78-81). -/
def dw_word (bytes_list : List Nat) (i : Nat) : Nat :=
  word_of_bytes (pad4 ((bytes_list.drop (i * 4)).take 4))

/-- All `dw_align` words of a byte list (src lines 76-81): the word count is
`(len + 3) / 4`. -/
def dw_words (bytes_list : List Nat) : List Nat :=
  (List.range ((bytes_list.length + 3) / 4)).map (dw_word bytes_list)

/-- Value of a little-endian list of 32-bit words, low word first. -/
def dwFold (l : List Nat) : Nat := l.foldr (fun w acc => w + 4294967296 * acc) 0

/-- Python `f"{w:032b}"` for `w < 2 ^ 32`: the 32 binary digit characters of
`w`, most significant first.  The `dw_align` renderer only builds words from
bytes below 256 (the output of `convert_to_bytes`), so every word it formats is
below `2 ^ 32` and has exactly 32 digits. -/
def pyBin32 (w : Nat) : List Char :=
  (List.range 32).map (fun j => if w.testBit (31 - j) then '1' else '0')

/-- Reference word for word `i` under `dw_align` (src lines 83-85).  An empty
Python list is falsy, so an absent reference and an empty slice both yield
`None`; a non-empty short slice is zero-padded to four bytes. -/
def dw_ref_word (reference_bytes : Option (List Nat)) (i : Nat) : Option Nat :=
  let ref_bytes : Option (List Nat) :=
    match reference_bytes with
    | some rb => if rb ≠ [] then some ((rb.drop (i * 4)).take 4) else none
    | none => none
  let ref_bytes : Option (List Nat) :=
    match ref_bytes with
    | some l =>
      if l ≠ [] ∧ l.length < 4 then some (l ++ List.replicate (4 - l.length) 0) else some l
    | none => none
  match ref_bytes with
  | some l => if l ≠ [] then some (word_of_bytes l) else none
  | none => none

/-- Diff row of the `dw_align` binary rendering (src lines 92-94): a caret where
the word's and the reference word's bit characters differ, a blank elsewhere,
and an all-blank row when there is no reference word. -/
def dw_diff_str (word : Nat) (ref_word : Option Nat) : List Char :=
  let bin_str := pyBin32 word
  let ref_str :=
    match ref_word with
    | some rw => pyBin32 rw
    | none => List.replicate 32 '-'
  (bin_str.zip ref_str).map (fun br => if ref_word ≠ none ∧ br.1 ≠ br.2 then '^' else ' ')

/-- Reserved command words (src lines 20-25). -/
def RESERVED_WORDS : List String :=
  ["hex", "dec", "bin", "to_hex", "to_bin", "to_dec", "byte_align", "dw_align", "list", "q"]

/-- Field comparison of the compare branch (src lines 225-229): walk the field
map sorted by low bit and collect a `(name, value-in-1, value-in-2)` triple for
every field whose extracted values differ. -/
def compare_fields (val1 val2 : Nat) (bit_field_map : List ((Nat × Nat) × String)) :
    List (String × Nat × Nat) :=
  (bit_field_map.mergeSort (fun x y => x.1.1 ≤ y.1.1)).filterMap (fun p =>
    let f1 := (extract_bit_range val1 p.1.1 p.1.2).1
    let f2 := (extract_bit_range val2 p.1.1 p.1.2).1
    if f1 ≠ f2 then some (p.2, f1, f2) else none)

/-- Python `re.fullmatch(r"\d+-\d+", s)` (src line 314): one digit run, one
dash, one digit run, nothing else. -/
def is_range_key (s : List Char) : Bool :=
  let ds := s.takeWhile pyDecimalDigit
  let rest := s.dropWhile pyDecimalDigit
  !ds.isEmpty &&
    (match rest with
     | '-' :: ds2 => !ds2.isEmpty && ds2.all pyDecimalDigit
     | _ => false)

/-- Python `re.fullmatch(r"r\d+-\d+", s)` (src line 174). -/
def is_range_cmd (s : List Char) : Bool :=
  match s with
  | 'r' :: rest => is_range_key rest
  | _ => false

/-- Key dispatch of `on_extract` (src lines 312-320): a digit range is split on
the dash and parsed; otherwise the key is looked up as a field name unless it
is a reserved word; anything else is rejected (`none`, the error dialog). -/
def on_extract_key (field_name_map : List (String × (Nat × Nat))) (key : List Char) :
    Option (Nat × Nat) :=
  if is_range_key key then
    some (pyIntVal 10 (key.takeWhile pyDecimalDigit),
          pyIntVal 10 ((key.dropWhile pyDecimalDigit).drop 1))
  else if (field_name_map.any (fun p => p.1 == String.mk key)) &&
      !(RESERVED_WORDS.contains (String.mk key)) then
    (field_name_map.find? (fun p => p.1 == String.mk key)).map (fun p => p.2)
  else
    none

/-- Session state of `interactive_loop` (src lines 127-130). -/
structure LoopState where
  current_input_mode : String
  current_output_format : String
  current_align_mode : String
  last_value : Option Nat
deriving DecidableEq

/-- One iteration of `interactive_loop` over one input line (src lines 136-248),
modelling the state updates; printing is elided.  `field_name_map` is the
global `FIELD_NAME_MAP` consulted by the field branch (src line 189). -/
def loop_step (field_name_map : List (String × (Nat × Nat))) (s : LoopState)
    (raw : List Char) : Except String LoopState :=
  let user_input := pyLower (pyStrip raw)
  let ui := String.mk user_input
  if ui = "q" then .ok s
  else if ui = "hex" ∨ ui = "dec" ∨ ui = "bin" then
    .ok { s with current_input_mode := ui }
  else if ui = "to_hex" ∨ ui = "to_bin" ∨ ui = "to_dec" then
    .ok { s with current_output_format := String.mk (user_input.drop 3) }
  else if ui = "byte_align" ∨ ui = "dw_align" then
    .ok { s with current_align_mode := ui }
  else if ui = "list" then .ok s
  else if is_range_cmd user_input then .ok s
  else if (field_name_map.any (fun p => p.1 == ui)) && !(RESERVED_WORDS.contains ui) then
    .ok s
  else
    let tokens := pySplit user_input
    if tokens.length = 2 then do
      let s1 := { s with current_output_format := "bin" }
      let val1 ← parse_by_mode (tokens.getD 0 []) s.current_input_mode
      let val2 ← parse_by_mode (tokens.getD 1 []) s.current_input_mode
      match val1, val2 with
      | some v1, some _ => pure { s1 with last_value := some v1 }
      | _, _ => pure s1
    else if tokens.length = 1 then do
      let value ← parse_by_mode (tokens.getD 0 []) s.current_input_mode
      match value with
      | some v => pure { s with last_value := some v }
      | none => pure s
    else .ok s

/-- JSON values as produced by `json.loads` for a field-map entry.  Objects are
omitted: like strings and null they fail the `isinstance(v, list)` check, and
the claims never need to distinguish them. -/
inductive Json where
  | jnum : Int → Json
  | jbool : Bool → Json
  | jstr : String → Json
  | jarr : List Json → Json
  | jnull : Json

/-- Python `isinstance(x, int)`; `bool` is an `int` subclass in Python. -/
def json_is_int : Json → Bool
  | .jnum _ => true
  | .jbool _ => true
  | _ => false

/-- Integer value of a JSON int (`True`/`False` count as 1/0). -/
def json_int_val : Json → Int
  | .jnum n => n
  | .jbool b => if b then 1 else 0
  | _ => 0

/-- Entry validation of the field-map import (src lines 364 and 435):
`isinstance(v, list) and len(v) == 2 and all(isinstance(i, int) for i in v)`. -/
def valid_field_entry : Json → Bool
  | .jarr l => l.length == 2 && l.all json_is_int
  | _ => false

/-- Python `tuple(v)` for a two-element entry. -/
def tuple_of : Json → Int × Int
  | .jarr [a, b] => (json_int_val a, json_int_val b)
  | _ => (0, 0)

/-- Python dict assignment `d[k] = v` on an insertion-ordered dict: update in
place if the key exists, else append. -/
def dict_insert_range (m : List ((Int × Int) × String)) (k : Int × Int) (v : String) :
    List ((Int × Int) × String) :=
  if m.any (fun p => p.1 == k) then m.map (fun p => if p.1 = k then (k, v) else p)
  else m ++ [(k, v)]

/-- Python dict assignment for the name-keyed reverse map. -/
def dict_insert_name (m : List (String × (Int × Int))) (k : String) (v : Int × Int) :
    List (String × (Int × Int)) :=
  if m.any (fun p => p.1 == k) then m.map (fun p => if p.1 = k then (k, v) else p)
  else m ++ [(k, v)]

/-- The `for k, v in json_map.items()` loop of `on_load_fieldmap` (src lines
363-366): insert entries into the (already cleared) `BIT_FIELD_MAP` until an
invalid entry raises `ValueError`.  The flag reports whether the loop finished
without raising. -/
def load_fieldmap_loop (bfm : List ((Int × Int) × String)) :
    List (String × Json) → List ((Int × Int) × String) × Bool
  | [] => (bfm, true)
  | (k, v) :: rest =>
    if valid_field_entry v then load_fieldmap_loop (dict_insert_range bfm (tuple_of v) k) rest
    else (bfm, false)

/-- Reverse map `{v: k for k, v in bfm.items()}` (src lines 19 and 367). -/
def reverse_name_map (bfm : List ((Int × Int) × String)) : List (String × (Int × Int)) :=
  bfm.foldl (fun acc p => dict_insert_name acc p.2 p.1) []

/-- Registry state: `BIT_FIELD_MAP` and its derived `FIELD_NAME_MAP`. -/
structure FieldMapState where
  bit_field_map : List ((Int × Int) × String)
  field_name_map : List (String × (Int × Int))
deriving DecidableEq

/-- Translation of `on_load_fieldmap` (src lines 352-370) from the point where
the JSONC text has been parsed into `json_map`.  The handler clears both global
maps, then validates and inserts entry by entry; a `ValueError` from a bad
entry is caught by the surrounding `except`, which only shows a message box, so
the partially rebuilt `BIT_FIELD_MAP` and the still-cleared `FIELD_NAME_MAP`
stay in place.  The prior state `st` is discarded unconditionally. -/
def on_load_fieldmap (st : FieldMapState) (json_map : List (String × Json)) : FieldMapState :=
  match load_fieldmap_loop [] json_map with
  | (bfm, true) => { bit_field_map := bfm, field_name_map := reverse_name_map bfm }
  | (bfm, false) => { bit_field_map := bfm, field_name_map := [] }

/-- Default registry state (src lines 12-19), in insertion order. -/
def DEFAULT_FIELDMAP_STATE : FieldMapState :=
  { bit_field_map := [((8, 12), "opcode"), ((0, 3), "valid"), ((4, 7), "flag"),
      ((16, 23), "address"), ((24, 31), "immediate")],
    field_name_map := [("opcode", (8, 12)), ("valid", (0, 3)), ("flag", (4, 7)),
      ("address", (16, 23)), ("immediate", (24, 31))] }

/-! Helper lemmas. -/

theorem shiftRight8_lt {v : Nat} (h : v ≠ 0) : v >>> 8 < v := by
  rw [Nat.shiftRight_eq_div_pow]
  exact Nat.div_lt_self (Nat.pos_of_ne_zero h) (by norm_num)

theorem shiftRight8_eq_div {v : Nat} : v >>> 8 = v / 256 := by
  rw [Nat.shiftRight_eq_div_pow]

theorem and255_eq_mod (v : Nat) : v &&& 255 = v % 256 := by
  have h : (255 : Nat) = 2 ^ 8 - 1 := by norm_num
  rw [h, Nat.and_pow_two_sub_one_eq_mod]

theorem size_shiftRight8 {v : Nat} (h : 256 ≤ v) : Nat.size (v >>> 8) = Nat.size v - 8 := by
  have h9 : 8 < Nat.size v := Nat.lt_size.mpr (le_trans (by norm_num) h)
  apply le_antisymm
  · rw [Nat.size_le, shiftRight8_eq_div,
      Nat.div_lt_iff_lt_mul (by norm_num : (0 : Nat) < 256)]
    calc v < 2 ^ Nat.size v := Nat.lt_size_self v
      _ = 2 ^ (Nat.size v - 8) * 256 := by
          rw [show (256 : Nat) = 2 ^ 8 by norm_num, ← pow_add]
          congr 1
          omega
  · have hlt : Nat.size v - 9 < Nat.size (v >>> 8) := by
      rw [Nat.lt_size, shiftRight8_eq_div,
        Nat.le_div_iff_mul_le (by norm_num : (0 : Nat) < 256)]
      calc 2 ^ (Nat.size v - 9) * 256 = 2 ^ (Nat.size v - 1) := by
            rw [show (256 : Nat) = 2 ^ 8 by norm_num, ← pow_add]
            congr 1
            omega
        _ ≤ v := Nat.lt_size.mp (by omega)
    omega

theorem bytesFold_nil : bytesFold [] = 0 := rfl

theorem bytesFold_cons (b : Nat) (l : List Nat) :
    bytesFold (b :: l) = b + 256 * bytesFold l := rfl

theorem convert_to_bytes_go_fold (v : Nat) : bytesFold (convert_to_bytes_go v) = v := by
  induction v using Nat.strong_induction_on with
  | _ v ih =>
    rw [convert_to_bytes_go]
    by_cases h : v = 0
    · simp [h, bytesFold_nil]
    · rw [if_neg h, bytesFold_cons, ih (v >>> 8) (shiftRight8_lt h), and255_eq_mod,
        shiftRight8_eq_div]
      omega

theorem convert_to_bytes_fold (v : Nat) : bytesFold (convert_to_bytes v) = v := by
  rw [convert_to_bytes]
  by_cases h : v = 0
  · simp [h, bytesFold_cons, bytesFold_nil]
  · rw [if_neg h, convert_to_bytes_go_fold]

theorem convert_to_bytes_go_length (v : Nat) :
    (convert_to_bytes_go v).length = (Nat.size v + 7) / 8 := by
  induction v using Nat.strong_induction_on with
  | _ v ih =>
    rw [convert_to_bytes_go]
    by_cases h : v = 0
    · simp [h, Nat.size_zero]
    · rw [if_neg h, List.length_cons, ih (v >>> 8) (shiftRight8_lt h)]
      by_cases h256 : v < 256
      · have h0 : v >>> 8 = 0 := by rw [shiftRight8_eq_div]; omega
        have h1 : Nat.size v ≤ 8 := Nat.size_le.mpr (lt_of_lt_of_le h256 (by norm_num))
        have h2 : 0 < Nat.size v := Nat.lt_size.mpr (by simpa using Nat.pos_of_ne_zero h)
        rw [h0, Nat.size_zero]
        omega
      · rw [size_shiftRight8 (v := v) (by omega)]
        have h9 : 8 < Nat.size v := Nat.lt_size.mpr (by
          calc (2 : Nat) ^ 8 = 256 := by norm_num
            _ ≤ v := by omega)
        omega

theorem convert_to_bytes_go_lt (v : Nat) : ∀ b ∈ convert_to_bytes_go v, b < 256 := by
  induction v using Nat.strong_induction_on with
  | _ v ih =>
    rw [convert_to_bytes_go]
    by_cases h : v = 0
    · simp [h]
    · rw [if_neg h]
      intro b hb
      rcases List.mem_cons.mp hb with rfl | hb
      · rw [and255_eq_mod]
        omega
      · exact ih (v >>> 8) (shiftRight8_lt h) b hb

theorem convert_to_bytes_go_last (v : Nat) :
    v ≠ 0 → ∀ l, (convert_to_bytes_go v).getLast? = some l → l ≠ 0 := by
  induction v using Nat.strong_induction_on with
  | _ v ih =>
    intro h l hl
    rw [convert_to_bytes_go, if_neg h] at hl
    by_cases h8 : v >>> 8 = 0
    · have hz : convert_to_bytes_go (v >>> 8) = [] := by
        rw [h8, convert_to_bytes_go]
        simp
      rw [hz] at hl
      simp only [List.getLast?_singleton, Option.some.injEq] at hl
      subst hl
      rw [and255_eq_mod]
      have : v < 256 := by
        rw [shiftRight8_eq_div] at h8
        omega
      omega
    · have hne : convert_to_bytes_go (v >>> 8) ≠ [] := by
        rw [convert_to_bytes_go, if_neg h8]
        simp
      obtain ⟨b, t, hbt⟩ := List.exists_cons_of_ne_nil hne
      rw [hbt, List.getLast?_cons_cons] at hl
      exact ih (v >>> 8) (shiftRight8_lt h) h8 l (hbt ▸ hl)

/-- C3: `extract_bit_range v a b` returns exactly
`((v >>> low) &&& ((1 <<< width) - 1), low, high)` with `low = min a b`,
`high = max a b`, `width = high - low + 1`; the result is invariant under
swapping the two bit arguments; extracting bits `0` to `bitLength v - 1` of a
positive `v` returns `v` itself; and a range lying entirely above the
significant bits of `v` extracts `0`. -/
theorem extract_bit_range_spec (v a b : Nat) :
    extract_bit_range v a b =
      ((v >>> min a b) &&& ((1 <<< (max a b - min a b + 1)) - 1), min a b, max a b) ∧
    extract_bit_range v a b = extract_bit_range v b a ∧
    (0 < v → (extract_bit_range v 0 (Nat.size v - 1)).1 = v) ∧
    (Nat.size v ≤ min a b → (extract_bit_range v a b).1 = 0) := by
  have hw : ((b : Int) - (a : Int)).natAbs = max a b - min a b := by omega
  refine ⟨?_, ?_, ?_, ?_⟩
  · simp only [extract_bit_range, hw]
    have hhigh : min a b + (max a b - min a b + 1) - 1 = max a b := by omega
    rw [hhigh]
  · simp only [extract_bit_range]
    have h1 : ((b : Int) - (a : Int)).natAbs = ((a : Int) - (b : Int)).natAbs := by omega
    rw [h1, Nat.min_comm]
  · intro hv
    have hs : 0 < Nat.size v := Nat.lt_size.mpr (by simpa using hv)
    have hw2 : (((Nat.size v - 1 : Nat) : Int) - ((0 : Nat) : Int)).natAbs + 1 = Nat.size v := by
      omega
    simp only [extract_bit_range, hw2]
    have hmin : min 0 (Nat.size v - 1) = 0 := by omega
    rw [hmin, Nat.shiftRight_zero, Nat.shiftLeft_eq, one_mul,
      Nat.and_pow_two_sub_one_eq_mod, Nat.mod_eq_of_lt (Nat.lt_size_self v)]
  · intro hle
    simp only [extract_bit_range]
    have hz : v >>> min a b = 0 := by
      rw [Nat.shiftRight_eq_div_pow]
      apply Nat.div_eq_of_lt
      calc v < 2 ^ Nat.size v := Nat.lt_size_self v
        _ ≤ 2 ^ min a b := Nat.pow_le_pow_right (by norm_num) hle
    rw [hz, Nat.zero_and]

/-- Witness for `extract_bit_range_spec` at concrete inputs: the opcode-style
extraction `extract(0x1F00, 8, 12)`, its swapped form, the identity range, and
a range above the significant bits. -/
theorem extract_bit_range_spec_witness :
    extract_bit_range 7936 8 12 = extract_bit_range 7936 12 8 ∧
    (extract_bit_range 7936 0 12).1 = 7936 ∧
    (extract_bit_range 7936 16 20).1 = 0 := by
  have hs : Nat.size 7936 = 13 :=
    le_antisymm (Nat.size_le.mpr (by norm_num)) (Nat.lt_size.mpr (by norm_num))
  refine ⟨(extract_bit_range_spec 7936 8 12).2.1, ?_, ?_⟩
  · have h := (extract_bit_range_spec 7936 0 12).2.2.1 (by norm_num)
    rw [hs] at h
    exact h
  · exact (extract_bit_range_spec 7936 16 20).2.2.2 (by rw [hs]; norm_num)

/-- C6: `convert_to_bytes` maps 0 to exactly `[0]`; every result has length at
least 1; and for positive `v` it returns exactly `ceil(bitLength v / 8)` bytes,
each below 256, in little-endian order (folding them back with radix 256
recovers `v`), with a nonzero last byte. -/
theorem convert_to_bytes_spec :
    convert_to_bytes 0 = [0] ∧
    (∀ v : Nat, 1 ≤ (convert_to_bytes v).length) ∧
    (∀ v : Nat, 0 < v →
      (convert_to_bytes v).length = (Nat.size v + 7) / 8 ∧
      (∀ b ∈ convert_to_bytes v, b < 256) ∧
      (∀ l, (convert_to_bytes v).getLast? = some l → l ≠ 0) ∧
      bytesFold (convert_to_bytes v) = v) := by
  have hpos : ∀ v : Nat, 0 < v → convert_to_bytes v = convert_to_bytes_go v := by
    intro v hv
    rw [convert_to_bytes, if_neg (by omega)]
  refine ⟨rfl, ?_, ?_⟩
  · intro v
    by_cases h : v = 0
    · simp [h, convert_to_bytes]
    · rw [hpos v (Nat.pos_of_ne_zero h), convert_to_bytes_go_length]
      have h2 : 0 < Nat.size v := Nat.lt_size.mpr (by simpa using Nat.pos_of_ne_zero h)
      omega
  · intro v hv
    rw [hpos v hv]
    exact ⟨convert_to_bytes_go_length v, convert_to_bytes_go_lt v,
      convert_to_bytes_go_last v (by omega), convert_to_bytes_go_fold v⟩

/-- Witness for `convert_to_bytes_spec` at `v = 256`: two bytes `[0, 1]`, length
`ceil(9/8) = 2`, nonzero last byte, and exact reassembly. -/
theorem convert_to_bytes_spec_witness :
    convert_to_bytes 256 = [0, 1] ∧
    (convert_to_bytes 256).length = (Nat.size 256 + 7) / 8 ∧
    (∀ b ∈ convert_to_bytes 256, b < 256) ∧
    (∀ l, (convert_to_bytes 256).getLast? = some l → l ≠ 0) ∧
    bytesFold (convert_to_bytes 256) = 256 := by
  have hev : convert_to_bytes 256 = [0, 1] := by
    rw [convert_to_bytes, if_neg (by norm_num), convert_to_bytes_go, if_neg (by norm_num),
      show (256 : Nat) &&& 255 = 0 from rfl, show (256 : Nat) >>> 8 = 1 from rfl,
      convert_to_bytes_go, if_neg (by norm_num),
      show (1 : Nat) &&& 255 = 1 from rfl, show (1 : Nat) >>> 8 = 0 from rfl,
      convert_to_bytes_go, if_pos rfl]
  exact ⟨hev, (convert_to_bytes_spec.2.2 256 (by norm_num)).1,
    (convert_to_bytes_spec.2.2 256 (by norm_num)).2.1,
    (convert_to_bytes_spec.2.2 256 (by norm_num)).2.2.1,
    (convert_to_bytes_spec.2.2 256 (by norm_num)).2.2.2⟩

/-- C8: comparing in the opposite order reports exactly the same differing
fields, with the two extracted values swapped in every triple. -/
theorem compare_fields_symm (val1 val2 : Nat) (m : List ((Nat × Nat) × String)) :
    compare_fields val2 val1 m =
      (compare_fields val1 val2 m).map (fun t => (t.1, t.2.2, t.2.1)) := by
  unfold compare_fields
  generalize (m.mergeSort fun x y => x.1.1 ≤ y.1.1) = l
  induction l with
  | nil => simp
  | cons p rest ih =>
    simp only [List.filterMap_cons]
    by_cases h : (extract_bit_range val1 p.1.1 p.1.2).1 = (extract_bit_range val2 p.1.1 p.1.2).1
    · rw [if_neg (by simp [h]), if_neg (by simp [h.symm]), ih]
    · rw [if_pos (by simpa using Ne.symm h), if_pos (by simpa using h), ih]
      simp

theorem on_extract_key_none_of (m : List (String × (Nat × Nat))) (key : List Char)
    (h1 : is_range_key key = false)
    (h2 : RESERVED_WORDS.contains (String.mk key) = true) :
    on_extract_key m key = none := by
  rw [on_extract_key, if_neg (by simp [h1]), if_neg]
  intro hc
  rw [Bool.and_eq_true] at hc
  rw [h2] at hc
  simp at hc

/-- C9: a field-extraction lookup of any reserved word fails, for every field
map — even one that contains an entry under that name. -/
theorem reserved_word_lookup_fails (m : List (String × (Nat × Nat))) (key : List Char)
    (h : String.mk key ∈ RESERVED_WORDS) :
    on_extract_key m key = none := by
  simp only [RESERVED_WORDS, List.mem_cons, List.not_mem_nil, or_false] at h
  rcases h with h|h|h|h|h|h|h|h|h|h <;>
    (obtain rfl : key = _ := congrArg String.data h) <;>
    exact on_extract_key_none_of _ _ (by decide) (by decide)

/-- Witness for `reserved_word_lookup_fails`: looking up `hex` fails even
though the map binds it. -/
theorem reserved_word_lookup_fails_witness :
    on_extract_key [("hex", (0, 3))] ['h', 'e', 'x'] = none :=
  reserved_word_lookup_fails [("hex", (0, 3))] ['h', 'e', 'x'] (by decide)

theorem hexChar_digitOk {c : Char} (h : isHexChar c = true) : pyDigitOk 16 c = true := by
  rw [isHexChar] at h
  simp only [Bool.or_eq_true, decide_eq_true_eq] at h
  rw [pyDigitOk, pyDigitVal]
  rcases h with (h | h) | h
  · rw [if_pos h]
    simp only [decide_eq_true_eq]
    omega
  · rw [if_neg (by omega), if_pos h]
    simp only [decide_eq_true_eq]
    omega
  · rw [if_neg (by omega), if_neg (by omega), if_pos h]
    simp only [decide_eq_true_eq]
    omega

theorem digit_digitOk {c : Char} (h : pyDecimalDigit c = true) : pyDigitOk 10 c = true := by
  rw [pyDecimalDigit, decide_eq_true_eq] at h
  rw [pyDigitOk, pyDigitVal, if_pos h]
  simp only [decide_eq_true_eq]
  omega

theorem decimalDigit_isDigitChar {c : Char} (h : pyDecimalDigit c = true) :
    pyIsDigitChar c = true := by
  rw [pyIsDigitChar, h, Bool.true_or]

theorem binChar_digitOk {c : Char} (h : isBinChar c = true) : pyDigitOk 2 c = true := by
  rw [isBinChar] at h
  simp only [Bool.or_eq_true, decide_eq_true_eq] at h
  rcases h with h | h <;> subst h <;> decide

theorem pyInt_ok {digits : List Char} {base : Nat} (hne : digits ≠ [])
    (hall : digits.all (pyDigitOk base) = true) :
    pyInt digits base = .ok (pyIntVal base digits) := by
  rw [pyInt, if_pos ⟨hne, hall⟩]

theorem parse_by_mode_hex_ok (raw : List Char) :
    ∃ r, parse_by_mode raw "hex" = Except.ok r := by
  simp only [parse_by_mode, ite_true]
  set hd := ((match re_search_group 'h' isHexU (pyLower (pyStrip raw)) with
    | some g => g
    | none => pyLower (pyStrip raw)).filter (fun c => c != '_')) with hhd
  by_cases hf : re_fullmatch_class isHexChar hd = true
  · rw [if_pos hf]
    rw [re_fullmatch_class, Bool.and_eq_true] at hf
    have hne : hd ≠ [] := by simpa using hf.1
    have hall : hd.all (pyDigitOk 16) = true := by
      rw [List.all_eq_true]
      intro c hc
      exact hexChar_digitOk (List.all_eq_true.mp hf.2 c hc)
    rw [pyInt_ok hne hall]
    exact ⟨some (pyIntVal 16 hd), rfl⟩
  · rw [if_neg hf]
    exact ⟨none, rfl⟩

theorem parse_by_mode_bin_ok (raw : List Char) :
    ∃ r, parse_by_mode raw "bin" = Except.ok r := by
  simp only [parse_by_mode, ite_true, ite_false]
  set bd := ((match re_search_group 'b' isBinU (pyLower (pyStrip raw)) with
    | some g => g
    | none => pyLower (pyStrip raw)).filter (fun c => c != '_')) with hbd
  by_cases hf : re_fullmatch_class isBinChar bd = true
  · rw [if_pos hf]
    rw [re_fullmatch_class, Bool.and_eq_true] at hf
    have hne : bd ≠ [] := by simpa using hf.1
    have hall : bd.all (pyDigitOk 2) = true := by
      rw [List.all_eq_true]
      intro c hc
      exact binChar_digitOk (List.all_eq_true.mp hf.2 c hc)
    rw [pyInt_ok hne hall]
    exact ⟨some (pyIntVal 2 bd), rfl⟩
  · rw [if_neg hf]
    exact ⟨none, rfl⟩

/-- C4, the code evaluated at a failing input: the superscript digit character
`²` satisfies `str.isdigit`, so dec-mode parsing passes it to `int()`, which
rejects it — the `ValueError` escapes `parse_by_mode` uncaught, an outcome
that is neither a parsed value nor the recoverable no-value result the claim
allows.  The hex and bin branches guard `int()` with an exact character-class
fullmatch and cannot raise (`parse_by_mode_hex_ok`, `parse_by_mode_bin_ok`);
the dec branch's `isdigit` guard is strictly wider than what `int()` accepts,
and this input exhibits the gap. -/
theorem parse_dec_uncaught_value_error :
    pyIsdigit ['²'] = true ∧ pyDigitOk 10 '²' = false ∧
    parse_by_mode ['²'] "dec" = .error "invalid literal for int()" :=
  ⟨by decide, by decide, rfl⟩

theorem tickPatternAt_cons_succ (marker : Char) (cls : Char → Bool) (c : Char)
    (rest : List Char) (i : Nat) :
    tickPatternAt marker cls (c :: rest) (i + 1) ↔ tickPatternAt marker cls rest i := by
  simp [tickPatternAt]

theorem re_search_group_isSome_iff (marker : Char) (cls : Char → Bool) (s : List Char) :
    (re_search_group marker cls s).isSome = true ↔ ∃ i, tickPatternAt marker cls s i := by
  induction s with
  | nil =>
    simp [re_search_group, tickPatternAt]
  | cons c rest ih =>
    rw [re_search_group]
    by_cases hc : (c = '\'' && rest.get? 0 == some marker && ((rest.get? 1).map cls).getD false) = true
    · rw [if_pos hc]
      simp only [Option.isSome_some, true_iff]
      simp only [Bool.and_eq_true, decide_eq_true_eq, beq_iff_eq] at hc
      obtain ⟨⟨hc1, hc2⟩, hc3⟩ := hc
      refine ⟨0, ?_, ?_, ?_⟩
      · simp [hc1]
      · simpa using hc2
      · cases hre : rest.get? 1 with
        | none => rw [hre] at hc3; simp at hc3
        | some d =>
          rw [hre] at hc3
          exact ⟨d, by simpa using hre, by simpa using hc3⟩
    · rw [if_neg hc, ih]
      constructor
      · rintro ⟨i, hi⟩
        exact ⟨i + 1, (tickPatternAt_cons_succ marker cls c rest i).mpr hi⟩
      · rintro ⟨i, hi⟩
        cases i with
        | zero =>
          exfalso
          apply hc
          obtain ⟨h1, h2, d, h3, h4⟩ := hi
          simp only [List.get?_cons_zero, Option.some.injEq] at h1
          simp only [List.get?_cons_succ] at h2 h3
          simp only [Bool.and_eq_true, decide_eq_true_eq, beq_iff_eq]
          exact ⟨⟨h1, by simp [← List.get?_eq_getElem?, h2]⟩,
            by simp [← List.get?_eq_getElem?, h3, h4]⟩
        | succ j =>
          exact ⟨j, (tickPatternAt_cons_succ marker cls c rest j).mp hi⟩

theorem parse_hex_cases (raw : List Char) :
    parse_by_mode raw "hex" =
      if hex_digits_of raw ≠ [] ∧ (hex_digits_of raw).all isHexChar = true then
        Except.ok (some (pyIntVal 16 (hex_digits_of raw)))
      else Except.ok none := by
  simp only [parse_by_mode, ite_true]
  have hdef : ((match re_search_group 'h' isHexU (pyLower (pyStrip raw)) with
      | some g => g
      | none => pyLower (pyStrip raw)).filter (fun c => c != '_')) = hex_digits_of raw := by
    rw [hex_digits_of]
    cases re_search_group 'h' isHexU (pyLower (pyStrip raw)) <;> rfl
  rw [hdef]
  by_cases hf : re_fullmatch_class isHexChar (hex_digits_of raw) = true
  · rw [if_pos hf]
    rw [re_fullmatch_class, Bool.and_eq_true] at hf
    have hne : hex_digits_of raw ≠ [] := by simpa using hf.1
    have hall : (hex_digits_of raw).all (pyDigitOk 16) = true := by
      rw [List.all_eq_true]
      intro c hc
      exact hexChar_digitOk (List.all_eq_true.mp hf.2 c hc)
    rw [pyInt_ok hne hall, if_pos ⟨hne, hf.2⟩]
    rfl
  · rw [if_neg hf, if_neg]
    · rfl
    · rintro ⟨h1, h2⟩
      exact hf (by rw [re_fullmatch_class, Bool.and_eq_true]; exact ⟨by simpa using h1, h2⟩)

/-- C5: hex-mode parsing succeeds exactly when the digit string it selects —
the capture group of the optional-width `'h` pattern when that pattern is
present anywhere in the trimmed, lowered input (the first conjunct equates the
search with the existence of such a pattern), otherwise the whole trimmed
lowered input — is, after underscore removal, non-empty and made of hex digits
only; it fails exactly when that string is empty or has a non-hex character;
and the parsed value is exactly the base-16 value of that digit string. -/
theorem parse_hex_grammar (raw : List Char) :
    ((re_search_group 'h' isHexU (pyLower (pyStrip raw))).isSome = true ↔
      ∃ i, tickPatternAt 'h' isHexU (pyLower (pyStrip raw)) i) ∧
    ((∃ v, parse_by_mode raw "hex" = .ok (some v)) ↔
      (hex_digits_of raw ≠ [] ∧ (hex_digits_of raw).all isHexChar = true)) ∧
    (parse_by_mode raw "hex" = .ok none ↔
      (hex_digits_of raw = [] ∨ (hex_digits_of raw).all isHexChar = false)) ∧
    (∀ v, parse_by_mode raw "hex" = .ok (some v) → v = pyIntVal 16 (hex_digits_of raw)) := by
  refine ⟨re_search_group_isSome_iff _ _ _, ?_, ?_, ?_⟩
  · rw [parse_hex_cases raw]
    by_cases hcond : hex_digits_of raw ≠ [] ∧ (hex_digits_of raw).all isHexChar = true
    · rw [if_pos hcond]
      exact ⟨fun _ => hcond, fun _ => ⟨pyIntVal 16 (hex_digits_of raw), rfl⟩⟩
    · rw [if_neg hcond]
      constructor
      · rintro ⟨v, hv⟩
        exact absurd hv (by simp)
      · intro hc
        exact absurd hc hcond
  · rw [parse_hex_cases raw]
    by_cases hcond : hex_digits_of raw ≠ [] ∧ (hex_digits_of raw).all isHexChar = true
    · rw [if_pos hcond]
      constructor
      · intro hv
        simp at hv
      · intro hdisj
        exfalso
        rcases hdisj with hdisj | hdisj
        · exact hcond.1 hdisj
        · rw [hcond.2] at hdisj
          simp at hdisj
    · rw [if_neg hcond]
      simp only [true_iff]
      by_cases he : hex_digits_of raw = []
      · exact Or.inl he
      · refine Or.inr ?_
        rcases Bool.eq_false_or_eq_true ((hex_digits_of raw).all isHexChar) with hx | hx
        · exact absurd ⟨he, hx⟩ hcond
        · exact hx
  · rw [parse_hex_cases raw]
    by_cases hcond : hex_digits_of raw ≠ [] ∧ (hex_digits_of raw).all isHexChar = true
    · rw [if_pos hcond]
      intro v hv
      simp only [Except.ok.injEq, Option.some.injEq] at hv
      exact hv.symm
    · rw [if_neg hcond]
      intro v hv
      simp at hv

/-- Witness for `parse_hex_grammar`: the grammar characterization applied at
the literal `8'hff` yields the successful parse of value 255. -/
theorem parse_hex_grammar_witness :
    parse_by_mode ['8', '\'', 'h', 'f', 'f'] "hex" =
      .ok (some (pyIntVal 16 (hex_digits_of ['8', '\'', 'h', 'f', 'f']))) ∧
    pyIntVal 16 (hex_digits_of ['8', '\'', 'h', 'f', 'f']) = 255 := by
  constructor
  · obtain ⟨v, hv⟩ := (parse_hex_grammar ['8', '\'', 'h', 'f', 'f']).2.1.mpr (by decide)
    have := (parse_hex_grammar ['8', '\'', 'h', 'f', 'f']).2.2.2 v hv
    rw [← this]
    exact hv
  · decide

theorem digitChar_facts {d : Nat} (h : d < 10) :
    pyIsSpace (digitChar d) = false ∧ pyCharLower (digitChar d) = digitChar d ∧
    pyDecimalDigit (digitChar d) = true ∧ pyDigitVal (digitChar d) = some d := by
  interval_cases d <;> exact ⟨rfl, rfl, rfl, rfl⟩

theorem pyStrNat_digits (v : Nat) : ∀ c ∈ pyStrNat v, ∃ d, d < 10 ∧ c = digitChar d := by
  induction v using Nat.strong_induction_on with
  | _ v ih =>
    rw [pyStrNat]
    by_cases h : v < 10
    · rw [if_pos h]
      intro c hc
      rw [List.mem_singleton] at hc
      exact ⟨v, h, hc⟩
    · rw [if_neg h]
      intro c hc
      rcases List.mem_append.mp hc with hc | hc
      · exact ih (v / 10) (by omega) c hc
      · rw [List.mem_singleton] at hc
        exact ⟨v % 10, by omega, hc⟩

theorem pyStrNat_ne_nil (v : Nat) : pyStrNat v ≠ [] := by
  rw [pyStrNat]
  by_cases h : v < 10
  · rw [if_pos h]
    simp
  · rw [if_neg h]
    simp

theorem pyStrNat_foldl (v : Nat) : ∀ a : Nat,
    (pyStrNat v).foldl (fun acc c => acc * 10 + (pyDigitVal c).getD 0) a =
      a * 10 ^ (pyStrNat v).length + v := by
  induction v using Nat.strong_induction_on with
  | _ v ih =>
    intro a
    rw [pyStrNat]
    by_cases h : v < 10
    · rw [if_pos h]
      simp only [List.foldl_cons, List.foldl_nil, List.length_singleton, pow_one,
        (digitChar_facts h).2.2.2, Option.getD_some]
    · rw [if_neg h]
      rw [List.foldl_append, ih (v / 10) (by omega) a]
      simp only [List.foldl_cons, List.foldl_nil, List.length_append,
        List.length_singleton, (digitChar_facts (show v % 10 < 10 by omega)).2.2.2,
        Option.getD_some]
      have hv : v / 10 * 10 + v % 10 = v := by omega
      rw [pow_succ]
      calc (a * 10 ^ (pyStrNat (v / 10)).length + v / 10) * 10 + v % 10
          = a * (10 ^ (pyStrNat (v / 10)).length * 10) + (v / 10 * 10 + v % 10) := by ring
        _ = a * (10 ^ (pyStrNat (v / 10)).length * 10) + v := by rw [hv]

theorem parse_dec_roundtrip (v : Nat) : parse_by_mode (pyStrNat v) "dec" = .ok (some v) := by
  have hd := pyStrNat_digits v
  have hstrip : pyStrip (pyStrNat v) = pyStrNat v := by
    have hall : ∀ c ∈ pyStrNat v, pyIsSpace c = false := by
      intro c hc
      obtain ⟨d, hd10, rfl⟩ := hd c hc
      exact (digitChar_facts hd10).1
    have h1 : ∀ (l : List Char), (∀ c ∈ l, pyIsSpace c = false) → l.dropWhile pyIsSpace = l := by
      intro l hl
      cases l with
      | nil => rfl
      | cons c rest =>
        rw [List.dropWhile_cons, if_neg]
        rw [hl c (by simp)]
        simp
    rw [pyStrip, h1 _ hall, h1, List.reverse_reverse]
    intro c hc
    exact hall c (by simpa using hc)
  have hlower : pyLower (pyStrNat v) = pyStrNat v := by
    rw [pyLower]
    have : ∀ c ∈ pyStrNat v, pyCharLower c = c := by
      intro c hc
      obtain ⟨d, hd10, rfl⟩ := hd c hc
      exact (digitChar_facts hd10).2.1
    calc (pyStrNat v).map pyCharLower = (pyStrNat v).map id := List.map_congr_left this
      _ = pyStrNat v := List.map_id _
  have hdig : pyIsdigit (pyStrNat v) = true := by
    rw [pyIsdigit, Bool.and_eq_true]
    refine ⟨by simpa using pyStrNat_ne_nil v, ?_⟩
    rw [List.all_eq_true]
    intro c hc
    obtain ⟨d, hd10, rfl⟩ := hd c hc
    exact decimalDigit_isDigitChar (digitChar_facts hd10).2.2.1
  have hall10 : (pyStrNat v).all (pyDigitOk 10) = true := by
    rw [List.all_eq_true]
    intro c hc
    obtain ⟨d, hd10, rfl⟩ := hd c hc
    exact digit_digitOk (digitChar_facts hd10).2.2.1
  have hval : pyIntVal 10 (pyStrNat v) = v := by
    rw [pyIntVal, pyStrNat_foldl v 0]
    simp
  simp only [parse_by_mode, ite_true, ite_false]
  rw [hstrip, hlower, if_pos hdig, pyInt_ok (pyStrNat_ne_nil v) hall10, hval]
  rfl

theorem lor_mul_pow {x y k : Nat} (h : y < 2 ^ k) : x * 2 ^ k ||| y = x * 2 ^ k + y := by
  apply Nat.eq_of_testBit_eq
  intro i
  rw [Nat.testBit_or]
  rcases Nat.lt_or_ge i k with hik | hik
  · have hsplit : (2 : Nat) ^ k = 2 ^ i * 2 ^ (k - i) := by
      rw [← pow_add]
      congr 1
      omega
    have hsplit2 : (2 : Nat) ^ (k - i) = 2 * 2 ^ (k - i - 1) := by
      rw [← pow_succ']
      congr 1
      omega
    have hx : (x * 2 ^ k).testBit i = false := by
      rw [Nat.testBit_to_div_mod, decide_eq_false_iff_not]
      have hdiv : x * 2 ^ k / 2 ^ i = 2 * (x * 2 ^ (k - i - 1)) := by
        rw [hsplit, show x * (2 ^ i * 2 ^ (k - i)) = x * 2 ^ (k - i) * 2 ^ i from by ring,
          Nat.mul_div_cancel _ (Nat.two_pow_pos i), hsplit2]
        ring
      rw [hdiv]
      omega
    have hsum : (x * 2 ^ k + y).testBit i = y.testBit i := by
      rw [Nat.testBit_to_div_mod, Nat.testBit_to_div_mod]
      have h1 : (x * 2 ^ k + y) / 2 ^ i = 2 * (x * 2 ^ (k - i - 1)) + y / 2 ^ i := by
        rw [show x * 2 ^ k = 2 ^ i * (2 * (x * 2 ^ (k - i - 1))) from by
            rw [hsplit, hsplit2]; ring,
          Nat.mul_add_div (Nat.two_pow_pos i)]
      rw [h1, Nat.mul_add_mod]
    rw [hx, hsum]
    simp
  · have hy : y.testBit i = false :=
      Nat.testBit_lt_two_pow (lt_of_lt_of_le h (Nat.pow_le_pow_right (by norm_num) hik))
    have hxl : (x * 2 ^ k).testBit i = x.testBit (i - k) := by
      rw [← Nat.shiftLeft_eq, Nat.testBit_shiftLeft]
      simp [hik]
    have hsum : (x * 2 ^ k + y).testBit i = x.testBit (i - k) := by
      rw [Nat.testBit_to_div_mod, Nat.testBit_to_div_mod]
      have h1 : (x * 2 ^ k + y) / 2 ^ i = x / 2 ^ (i - k) := by
        rw [show (2 : Nat) ^ i = 2 ^ k * 2 ^ (i - k) from by rw [← pow_add]; congr 1; omega,
          ← Nat.div_div_eq_div_mul, Nat.mul_comm x, Nat.mul_add_div (Nat.two_pow_pos k),
          Nat.div_eq_of_lt h, Nat.add_zero]
      rw [h1]
    rw [hxl, hy, hsum]
    simp

theorem word4_eq {b0 b1 b2 b3 : Nat} (h0 : b0 < 256) (h1 : b1 < 256) (h2 : b2 < 256) :
    (b3 <<< 24) ||| (b2 <<< 16) ||| (b1 <<< 8) ||| b0 =
      b0 + 256 * b1 + 65536 * b2 + 16777216 * b3 := by
  rw [Nat.shiftLeft_eq, Nat.shiftLeft_eq, Nat.shiftLeft_eq]
  rw [lor_mul_pow (show b2 * 2 ^ 16 < 2 ^ 24 by norm_num; omega)]
  rw [show b3 * 2 ^ 24 + b2 * 2 ^ 16 = (b3 * 2 ^ 8 + b2) * 2 ^ 16 from by ring]
  rw [lor_mul_pow (show b1 * 2 ^ 8 < 2 ^ 16 by norm_num; omega)]
  rw [show (b3 * 2 ^ 8 + b2) * 2 ^ 16 + b1 * 2 ^ 8 =
    (b3 * 2 ^ 16 + b2 * 2 ^ 8 + b1) * 2 ^ 8 from by ring]
  rw [lor_mul_pow (show b0 < 2 ^ 8 by norm_num; omega)]
  ring_nf

theorem word_of_bytes_pad4 (g : List Nat) (hlen : g.length ≤ 4) (hb : ∀ b ∈ g, b < 256) :
    word_of_bytes (pad4 g) = bytesFold g := by
  rcases g with _ | ⟨b0, _ | ⟨b1, _ | ⟨b2, _ | ⟨b3, _ | ⟨b4, t⟩⟩⟩⟩⟩
  · rw [show pad4 [] = [0, 0, 0, 0] from rfl,
      show word_of_bytes [0, 0, 0, 0] = (0 <<< 24) ||| (0 <<< 16) ||| (0 <<< 8) ||| 0 from rfl,
      word4_eq (by norm_num) (by norm_num) (by norm_num), bytesFold_nil]
  · rw [show pad4 [b0] = [b0, 0, 0, 0] from rfl,
      show word_of_bytes [b0, 0, 0, 0] = (0 <<< 24) ||| (0 <<< 16) ||| (0 <<< 8) ||| b0 from rfl,
      word4_eq (hb b0 (by simp)) (by norm_num) (by norm_num), bytesFold_cons, bytesFold_nil]
  · rw [show pad4 [b0, b1] = [b0, b1, 0, 0] from rfl,
      show word_of_bytes [b0, b1, 0, 0] = (0 <<< 24) ||| (0 <<< 16) ||| (b1 <<< 8) ||| b0 from rfl,
      word4_eq (hb b0 (by simp)) (hb b1 (by simp)) (by norm_num),
      bytesFold_cons, bytesFold_cons, bytesFold_nil]
    omega
  · rw [show pad4 [b0, b1, b2] = [b0, b1, b2, 0] from rfl,
      show word_of_bytes [b0, b1, b2, 0] =
        (0 <<< 24) ||| (b2 <<< 16) ||| (b1 <<< 8) ||| b0 from rfl,
      word4_eq (hb b0 (by simp)) (hb b1 (by simp)) (hb b2 (by simp)),
      bytesFold_cons, bytesFold_cons, bytesFold_cons, bytesFold_nil]
    omega
  · rw [show pad4 [b0, b1, b2, b3] = [b0, b1, b2, b3] from rfl,
      show word_of_bytes [b0, b1, b2, b3] =
        (b3 <<< 24) ||| (b2 <<< 16) ||| (b1 <<< 8) ||| b0 from rfl,
      word4_eq (hb b0 (by simp)) (hb b1 (by simp)) (hb b2 (by simp)),
      bytesFold_cons, bytesFold_cons, bytesFold_cons, bytesFold_cons, bytesFold_nil]
    omega
  · simp at hlen

theorem dwFold_nil : dwFold [] = 0 := rfl

theorem dwFold_cons (w : Nat) (l : List Nat) :
    dwFold (w :: l) = w + 4294967296 * dwFold l := rfl

theorem bytesFold_append (l1 l2 : List Nat) :
    bytesFold (l1 ++ l2) = bytesFold l1 + 256 ^ l1.length * bytesFold l2 := by
  induction l1 with
  | nil => simp [bytesFold_nil]
  | cons b t ih =>
    rw [List.cons_append, bytesFold_cons, bytesFold_cons, ih, List.length_cons, pow_succ]
    ring

theorem dw_words_nil : dw_words [] = [] := rfl

theorem dw_word_succ (bs : List Nat) (i : Nat) :
    dw_word bs (i + 1) = dw_word (bs.drop 4) i := by
  have h1 : (bs.drop 4).drop (i * 4) = bs.drop ((i + 1) * 4) := by
    rw [List.drop_drop]
    congr 1
    omega
  rw [dw_word, dw_word, h1]

theorem dw_words_cons (bs : List Nat) (h : bs ≠ []) :
    dw_words bs = word_of_bytes (pad4 (bs.take 4)) :: dw_words (bs.drop 4) := by
  have hlen : bs.length ≠ 0 := by simpa using h
  have hcount : (bs.length + 3) / 4 = ((bs.drop 4).length + 3) / 4 + 1 := by
    rw [List.length_drop]
    omega
  rw [dw_words, hcount, List.range_succ_eq_map, List.map_cons, List.map_map]
  have hhead : dw_word bs 0 = word_of_bytes (pad4 (bs.take 4)) := by
    rw [dw_word]
    simp
  have htail : List.map (dw_word bs ∘ Nat.succ) (List.range (((bs.drop 4).length + 3) / 4)) =
      dw_words (bs.drop 4) := by
    rw [dw_words]
    exact List.map_congr_left fun i _ => dw_word_succ bs i
  rw [hhead, htail]

theorem dwFold_dw_words : ∀ (n : Nat) (bs : List Nat), bs.length ≤ n →
    (∀ b ∈ bs, b < 256) → dwFold (dw_words bs) = bytesFold bs := by
  intro n
  induction n with
  | zero =>
    intro bs hlen _
    have hbs : bs = [] := List.length_eq_zero.mp (by omega)
    rw [hbs, dw_words_nil, dwFold_nil, bytesFold_nil]
  | succ n ih =>
    intro bs hlen hb
    by_cases h : bs = []
    · rw [h, dw_words_nil, dwFold_nil, bytesFold_nil]
    · rw [dw_words_cons bs h, dwFold_cons,
        word_of_bytes_pad4 (bs.take 4) (by simp) (fun b hbm => hb b (List.mem_of_mem_take hbm)),
        ih (bs.drop 4)
          (by
            rw [List.length_drop]
            have hn : bs.length ≠ 0 := by simpa using h
            omega)
          (fun b hbm => hb b (List.mem_of_mem_drop hbm))]
      calc bytesFold (bs.take 4) + 4294967296 * bytesFold (bs.drop 4)
          = bytesFold (bs.take 4) + 256 ^ (bs.take 4).length * bytesFold (bs.drop 4) := by
            by_cases h4 : bs.length ≤ 4
            · rw [List.drop_eq_nil_of_le h4, bytesFold_nil]
              ring
            · rw [List.length_take, min_eq_left (by omega)]
              norm_num
        _ = bytesFold (bs.take 4 ++ bs.drop 4) := (bytesFold_append _ _).symm
        _ = bytesFold bs := by rw [List.take_append_drop]

/-- C7: the round trip holds in both directions the specification names — for
every value `v`, parsing the decimal rendering of `v` in dec mode returns `v`
exactly, and reassembling the bytes of `v` by the `dw_align` little-endian
4-byte word rule (last group zero-padded high) and concatenating the 32-bit
words low word first reconstructs `v` exactly. -/
theorem roundtrip_spec :
    (∀ v : Nat, parse_by_mode (pyStrNat v) "dec" = .ok (some v)) ∧
    (∀ v : Nat, dwFold (dw_words (convert_to_bytes v)) = v) := by
  refine ⟨parse_dec_roundtrip, ?_⟩
  intro v
  have hb : ∀ b ∈ convert_to_bytes v, b < 256 := by
    rw [convert_to_bytes]
    by_cases h : v = 0
    · rw [if_pos h]
      intro b hbm
      rw [List.mem_singleton] at hbm
      omega
    · rw [if_neg h]
      exact convert_to_bytes_go_lt v
  rw [dwFold_dw_words (convert_to_bytes v).length (convert_to_bytes v) le_rfl hb,
    convert_to_bytes_fold]

theorem pyBin32_length (w : Nat) : (pyBin32 w).length = 32 := by
  rw [pyBin32, List.length_map, List.length_range]

theorem dw_diff_str_none (w : Nat) : dw_diff_str w none = List.replicate 32 ' ' := by
  rw [dw_diff_str]
  simp only [ne_eq, not_true_eq_false, false_and, if_false]
  rw [List.map_const', List.length_zip, pyBin32_length, List.length_replicate, min_self]

theorem dw_ref_word_none_of_out_of_range (reference_bytes : List Nat) (i : Nat)
    (hle : reference_bytes.length ≤ i * 4) :
    dw_ref_word (some reference_bytes) i = none := by
  rw [dw_ref_word]
  by_cases hrb : reference_bytes = []
  · rw [if_neg (by simp [hrb])]
  · rw [if_pos hrb]
    have hdrop : reference_bytes.drop (i * 4) = [] := List.drop_eq_nil_of_le hle
    rw [hdrop]
    simp

/-- C2 amended: a `dw_align` word none of whose contributing reference byte
indices is in range (the reference slice is empty) produces an all-blank diff
row — the reference is treated as unavailable, never compared as zero; but for
a partially covered word the missing reference bytes are zero-filled and do
take part in the bit comparison, the reference word being assembled by exactly
the same padded-word rule as a primary word. -/
theorem dw_ref_diff_spec (bytes_list reference_bytes : List Nat) (i : Nat) :
    (reference_bytes.length ≤ i * 4 →
      dw_diff_str (dw_word bytes_list i) (dw_ref_word (some reference_bytes) i) =
        List.replicate 32 ' ') ∧
    (reference_bytes ≠ [] → i * 4 < reference_bytes.length →
      dw_ref_word (some reference_bytes) i = some (dw_word reference_bytes i)) := by
  constructor
  · intro hle
    rw [dw_ref_word_none_of_out_of_range reference_bytes i hle, dw_diff_str_none]
  · intro hne hlt
    have hslice_len : ((reference_bytes.drop (i * 4)).take 4).length =
        min 4 (reference_bytes.length - i * 4) := by
      rw [List.length_take, List.length_drop]
    have hslice_ne : (reference_bytes.drop (i * 4)).take 4 ≠ [] := by
      have : ((reference_bytes.drop (i * 4)).take 4).length ≠ 0 := by
        rw [hslice_len]
        omega
      intro hc
      rw [hc] at this
      simp at this
    rw [dw_ref_word, if_pos hne]
    by_cases h4 : ((reference_bytes.drop (i * 4)).take 4).length < 4
    · simp only [if_pos (And.intro hslice_ne h4)]
      rw [if_pos (by simp [hslice_ne])]
      · rw [dw_word, pad4]
    · have hcond : ¬((reference_bytes.drop (i * 4)).take 4 ≠ [] ∧
          ((reference_bytes.drop (i * 4)).take 4).length < 4) := fun hand => h4 hand.2
      simp only [if_neg hcond, if_pos hslice_ne]
      rw [dw_word, pad4]
      have h4' : ((reference_bytes.drop (i * 4)).take 4).length = 4 := by
        rw [hslice_len] at h4 ⊢
        omega
      rw [h4']
      simp

/-- Witness for `dw_ref_diff_spec`: with reference `[9]`, word 1 is entirely out
of the reference range and gets an all-blank diff row, while word 0 is
partially covered and its reference word is assembled like a primary word. -/
theorem dw_ref_diff_spec_witness :
    dw_diff_str (dw_word [1, 2, 3, 4, 5] 1) (dw_ref_word (some [9]) 1) =
      List.replicate 32 ' ' ∧
    dw_ref_word (some [9]) 0 = some (dw_word [9] 0) := by
  exact ⟨(dw_ref_diff_spec [1, 2, 3, 4, 5] [9] 1).1 (by norm_num),
    (dw_ref_diff_spec [1, 2, 3, 4, 5] [9] 0).2 (by simp) (by norm_num)⟩

/-- Counterexample to C2 as stated: primary bytes `[1, 2]` (two bytes) against
the strictly shorter reference `[1]` (one byte).  Word 0 is partially covered;
its missing reference bytes are zero-filled and compared, so the diff row is
not blank: position 22 of the 32-character row — bit 9, contributed by primary
byte index 1, which is out of range for the reference — carries a `'^'` mark, a
false positive under the claim's reading. -/
theorem dw_ref_diff_false_positive :
    ([1] : List Nat).length < ([1, 2] : List Nat).length ∧
    (dw_diff_str (dw_word [1, 2] 0) (dw_ref_word (some [1]) 0)).getD 22 ' ' = '^' ∧
    dw_diff_str (dw_word [1, 2] 0) (dw_ref_word (some [1]) 0) ≠ List.replicate 32 ' ' := by
  decide

/-- C1, the code evaluated at a failing input: importing the mapping
`{"a": [0, 3], "b": "bad"}` through the GUI field-map loader clears the
registry before validating, so when entry `b` fails validation the handler
leaves `BIT_FIELD_MAP` holding only the already-inserted `a` entry and
`FIELD_NAME_MAP` empty — every pre-existing binding of the default map is
gone, contradicting validate-before-mutate atomicity. -/
theorem on_load_fieldmap_clobbers :
    (on_load_fieldmap DEFAULT_FIELDMAP_STATE
        [("a", Json.jarr [Json.jnum 0, Json.jnum 3]), ("b", Json.jstr "bad")]).bit_field_map =
      [((0, 3), "a")] ∧
    (on_load_fieldmap DEFAULT_FIELDMAP_STATE
        [("a", Json.jarr [Json.jnum 0, Json.jnum 3]), ("b", Json.jstr "bad")]).field_name_map =
      [] ∧
    on_load_fieldmap DEFAULT_FIELDMAP_STATE
        [("a", Json.jarr [Json.jnum 0, Json.jnum 3]), ("b", Json.jstr "bad")] ≠
      DEFAULT_FIELDMAP_STATE := by
  decide


/-- Counterexample to C10 as stated: in dec input mode the line `² ²` reaches
the two-token compare branch (it splits into exactly two tokens and matches no
earlier branch), but each token passes `isdigit` and is rejected by `int()`,
so instead of a continuing session whose output format has been set to `bin`
the loop terminates with the uncaught `ValueError` — no post-compare session
state exists at all. -/
theorem loop_step_compare_crash :
    (pySplit (pyLower (pyStrip ['²', ' ', '²']))).length = 2 ∧
    loop_step [] ⟨"dec", "hex", "byte_align", none⟩ ['²', ' ', '²'] =
      .error "invalid literal for int()" ∧
    ¬∃ s', loop_step [] ⟨"dec", "hex", "byte_align", none⟩ ['²', ' ', '²'] = .ok s' ∧
      s'.current_output_format = "bin" := by
  refine ⟨by decide, rfl, ?_⟩
  rintro ⟨s', hs, _⟩
  rw [show loop_step [] ⟨"dec", "hex", "byte_align", none⟩ ['²', ' ', '²'] =
    .error "invalid literal for int()" from rfl] at hs
  cases hs

/-- C10 amended: an input line that reaches the two-token compare branch of
the interactive loop assigns output format `bin` before parsing, so every
session state the loop can continue with after such a line carries output
format `bin`, whatever it was before (first conjunct); with hex or bin input
mode — where parsing never raises — the branch always produces such a state,
even when a token fails to parse (second conjunct); and once the output format
is `bin`, any further input that is not `to_hex`/`to_bin`/`to_dec` leaves it
at `bin`, so subsequent single-value renders also use binary until a new
format command (third conjunct).  The only escape is a dec-mode token on which
`isdigit` and `int()` disagree, which raises the uncaught `ValueError` that
terminates the loop instead of yielding a state. -/
theorem loop_step_compare_forces_bin :
    (∀ (fnm : List (String × (Nat × Nat))) (s : LoopState) (raw : List Char) (s' : LoopState),
      String.mk (pyLower (pyStrip raw)) ≠ "q" →
      ¬(String.mk (pyLower (pyStrip raw)) = "hex" ∨ String.mk (pyLower (pyStrip raw)) = "dec" ∨
        String.mk (pyLower (pyStrip raw)) = "bin") →
      ¬(String.mk (pyLower (pyStrip raw)) = "to_hex" ∨
        String.mk (pyLower (pyStrip raw)) = "to_bin" ∨
        String.mk (pyLower (pyStrip raw)) = "to_dec") →
      ¬(String.mk (pyLower (pyStrip raw)) = "byte_align" ∨
        String.mk (pyLower (pyStrip raw)) = "dw_align") →
      String.mk (pyLower (pyStrip raw)) ≠ "list" →
      is_range_cmd (pyLower (pyStrip raw)) = false →
      ((fnm.any (fun p => p.1 == String.mk (pyLower (pyStrip raw)))) &&
        !(RESERVED_WORDS.contains (String.mk (pyLower (pyStrip raw))))) = false →
      (pySplit (pyLower (pyStrip raw))).length = 2 →
      loop_step fnm s raw = .ok s' → s'.current_output_format = "bin") ∧
    (∀ (fnm : List (String × (Nat × Nat))) (s : LoopState) (raw : List Char),
      String.mk (pyLower (pyStrip raw)) ≠ "q" →
      ¬(String.mk (pyLower (pyStrip raw)) = "hex" ∨ String.mk (pyLower (pyStrip raw)) = "dec" ∨
        String.mk (pyLower (pyStrip raw)) = "bin") →
      ¬(String.mk (pyLower (pyStrip raw)) = "to_hex" ∨
        String.mk (pyLower (pyStrip raw)) = "to_bin" ∨
        String.mk (pyLower (pyStrip raw)) = "to_dec") →
      ¬(String.mk (pyLower (pyStrip raw)) = "byte_align" ∨
        String.mk (pyLower (pyStrip raw)) = "dw_align") →
      String.mk (pyLower (pyStrip raw)) ≠ "list" →
      is_range_cmd (pyLower (pyStrip raw)) = false →
      ((fnm.any (fun p => p.1 == String.mk (pyLower (pyStrip raw)))) &&
        !(RESERVED_WORDS.contains (String.mk (pyLower (pyStrip raw))))) = false →
      (pySplit (pyLower (pyStrip raw))).length = 2 →
      (s.current_input_mode = "hex" ∨ s.current_input_mode = "bin") →
      ∃ s', loop_step fnm s raw = .ok s' ∧ s'.current_output_format = "bin") ∧
    (∀ (fnm : List (String × (Nat × Nat))) (s : LoopState) (raw : List Char) (s' : LoopState),
      s.current_output_format = "bin" →
      String.mk (pyLower (pyStrip raw)) ∉ (["to_hex", "to_bin", "to_dec"] : List String) →
      loop_step fnm s raw = .ok s' → s'.current_output_format = "bin") := by
  refine ⟨?_, ?_, ?_⟩
  · intro fnm s raw s' hq hm hf ha hl hr hfield htok hstep
    rw [loop_step, if_neg hq, if_neg hm, if_neg hf, if_neg ha, if_neg hl,
      if_neg (by rw [hr]; exact Bool.false_ne_true),
      if_neg (by rw [hfield]; exact Bool.false_ne_true), if_pos htok] at hstep
    cases h1 : parse_by_mode ((pySplit (pyLower (pyStrip raw))).getD 0 [])
        s.current_input_mode with
    | error e =>
      rw [h1] at hstep
      cases hstep
    | ok r1 =>
      rw [h1] at hstep
      cases h2 : parse_by_mode ((pySplit (pyLower (pyStrip raw))).getD 1 [])
          s.current_input_mode with
      | error e =>
        rw [h2] at hstep
        cases r1 <;> cases hstep
      | ok r2 =>
        rw [h2] at hstep
        cases r1 <;> cases r2 <;> (cases hstep; rfl)
  · intro fnm s raw hq hm hf ha hl hr hfield htok hmode
    rw [loop_step, if_neg hq, if_neg hm, if_neg hf, if_neg ha, if_neg hl,
      if_neg (by rw [hr]; exact Bool.false_ne_true),
      if_neg (by rw [hfield]; exact Bool.false_ne_true), if_pos htok]
    rcases hmode with hmode | hmode <;> rw [hmode]
    · obtain ⟨r1, h1⟩ := parse_by_mode_hex_ok ((pySplit (pyLower (pyStrip raw))).getD 0 [])
      obtain ⟨r2, h2⟩ := parse_by_mode_hex_ok ((pySplit (pyLower (pyStrip raw))).getD 1 [])
      rw [h1, h2]
      cases r1 <;> cases r2 <;> exact ⟨_, rfl, rfl⟩
    · obtain ⟨r1, h1⟩ := parse_by_mode_bin_ok ((pySplit (pyLower (pyStrip raw))).getD 0 [])
      obtain ⟨r2, h2⟩ := parse_by_mode_bin_ok ((pySplit (pyLower (pyStrip raw))).getD 1 [])
      rw [h1, h2]
      cases r1 <;> cases r2 <;> exact ⟨_, rfl, rfl⟩
  · intro fnm s raw s' hbin hnotto hstep
    rw [loop_step] at hstep
    simp only [List.mem_cons, List.not_mem_nil, or_false, not_or] at hnotto
    obtain ⟨hn1, hn2, hn3⟩ := hnotto
    by_cases hq : String.mk (pyLower (pyStrip raw)) = "q"
    · rw [if_pos hq] at hstep
      cases hstep
      exact hbin
    rw [if_neg hq] at hstep
    by_cases hm : String.mk (pyLower (pyStrip raw)) = "hex" ∨
      String.mk (pyLower (pyStrip raw)) = "dec" ∨ String.mk (pyLower (pyStrip raw)) = "bin"
    · rw [if_pos hm] at hstep
      cases hstep
      exact hbin
    rw [if_neg hm] at hstep
    rw [if_neg (by simp [hn1, hn2, hn3])] at hstep
    by_cases ha : String.mk (pyLower (pyStrip raw)) = "byte_align" ∨
      String.mk (pyLower (pyStrip raw)) = "dw_align"
    · rw [if_pos ha] at hstep
      cases hstep
      exact hbin
    rw [if_neg ha] at hstep
    by_cases hl : String.mk (pyLower (pyStrip raw)) = "list"
    · rw [if_pos hl] at hstep
      cases hstep
      exact hbin
    rw [if_neg hl] at hstep
    by_cases hr : is_range_cmd (pyLower (pyStrip raw)) = true
    · rw [if_pos hr] at hstep
      cases hstep
      exact hbin
    rw [if_neg hr] at hstep
    by_cases hfield : ((fnm.any (fun p => p.1 == String.mk (pyLower (pyStrip raw)))) &&
      !(RESERVED_WORDS.contains (String.mk (pyLower (pyStrip raw))))) = true
    · rw [if_pos hfield] at hstep
      cases hstep
      exact hbin
    rw [if_neg hfield] at hstep
    by_cases htok : (pySplit (pyLower (pyStrip raw))).length = 2
    · rw [if_pos htok] at hstep
      cases h1 : parse_by_mode ((pySplit (pyLower (pyStrip raw))).getD 0 [])
          s.current_input_mode with
      | error e =>
        rw [h1] at hstep
        cases hstep
      | ok r1 =>
        rw [h1] at hstep
        cases h2 : parse_by_mode ((pySplit (pyLower (pyStrip raw))).getD 1 [])
            s.current_input_mode with
        | error e =>
          rw [h2] at hstep
          cases r1 <;> cases hstep
        | ok r2 =>
          rw [h2] at hstep
          cases r1 <;> cases r2 <;> (cases hstep; rfl)
    rw [if_neg htok] at hstep
    by_cases htok1 : (pySplit (pyLower (pyStrip raw))).length = 1
    · rw [if_pos htok1] at hstep
      cases h1 : parse_by_mode ((pySplit (pyLower (pyStrip raw))).getD 0 [])
          s.current_input_mode with
      | error e =>
        rw [h1] at hstep
        cases hstep
      | ok r1 =>
        rw [h1] at hstep
        cases r1 <;> (cases hstep; exact hbin)
    rw [if_neg htok1] at hstep
    cases hstep
    exact hbin

/-- Witness for `loop_step_compare_forces_bin`: the line `1 2` entered in dec
input mode parses fine and the resulting state has output format `bin` (first
conjunct); the same line in hex input mode always yields such a state (second
conjunct); and a subsequent single-value line `3` leaves the format at `bin`
(third conjunct). -/
theorem loop_step_compare_forces_bin_witness :
    LoopState.current_output_format ⟨"dec", "bin", "byte_align", some 1⟩ = "bin" ∧
    (∃ s', loop_step [] ⟨"hex", "hex", "byte_align", none⟩ ['1', ' ', '2'] = .ok s' ∧
      s'.current_output_format = "bin") ∧
    LoopState.current_output_format ⟨"hex", "bin", "byte_align", some 3⟩ = "bin" := by
  refine ⟨?_, ?_, ?_⟩
  · exact loop_step_compare_forces_bin.1 [] ⟨"dec", "hex", "byte_align", none⟩ ['1', ' ', '2']
      ⟨"dec", "bin", "byte_align", some 1⟩ (by decide) (by decide) (by decide) (by decide)
      (by decide) (by decide) (by decide) (by decide) rfl
  · exact loop_step_compare_forces_bin.2.1 [] ⟨"hex", "hex", "byte_align", none⟩ ['1', ' ', '2']
      (by decide) (by decide) (by decide) (by decide) (by decide) (by decide) (by decide)
      (by decide) (Or.inl rfl)
  · exact loop_step_compare_forces_bin.2.2 [] ⟨"hex", "bin", "byte_align", none⟩ ['3']
      ⟨"hex", "bin", "byte_align", some 3⟩ rfl (by decide) rfl
